import Mathlib

/-!
# Quatter: the turn machine and the piece selection of `MasterControl`

A shallow embedding of `src/mastercontrol.cpp` and `src/piece.h`.

* A `Piece*` is the position of the piece in `world_.pieces_` (`PiecePtr`), a null
  pointer is `none`.
* `int` is `Int`; `Vector::At` checks its index and fails with
  `Fault.indexOutOfRange`.
* The `while` loop of `StepSelectPiece` takes a bound on the number of times its
  condition is evaluated and fails with `Fault.outOfFuel` when the bound is used up.
* `Lame()` and `LucKey::Distance(CAMERA->GetPosition(), piece->GetPosition())` are
  not in the sources: the value `Lame()` returns and the distance of every piece are
  arguments of the functions that use them, the distance in any linear order.
* Music, lights, scene nodes, positions and `lastReset_` are left out: no function
  below reads them.
-/

namespace QuatterCore

/-! ## Data model -/

/-- Modelled from the spec: the constant `NUM_PIECES` of `mastercontrol.h`, which is
not among the sources; the spec has 16 pieces, one for each 4-bit pattern. -/
abbrev NUM_PIECES : Nat := 16

/-- The `enum class PieceState {FREE, SELECTED, PUT}` of `piece.h`. -/
inductive PieceState where
  | FREE
  | SELECTED
  | PUT
  deriving DecidableEq, Repr

/-- Modelled from the spec: the `enum class GameState` of `mastercontrol.h`, which is
not among the sources; its five values are the ones `NextPhase`, `Quatter` and
`Reset` name. -/
inductive GameState where
  | PLAYER1PICKS
  | PLAYER2PUTS
  | PLAYER2PICKS
  | PLAYER1PUTS
  | QUATTER
  deriving DecidableEq, Repr

/-- Modelled from the spec: the selection mode enum of `mastercontrol.h`, which is not
among the sources; `Reset` sets `SM_CAMERA`, `StepSelectPiece` sets `SM_STEP`. -/
inductive SelectionMode where
  | SM_CAMERA
  | SM_STEP
  deriving DecidableEq, Repr

/-- The ways a call can fail to return. -/
inductive Fault where
  | outOfFuel
  | indexOutOfRange
  deriving DecidableEq, Repr

/-- The `std::bitset<4>` of `piece.h`: four bits, at positions 0 to 3. -/
abbrev Attributes := Fin 4 → Bool

/-- The conversion `Piece::Attributes(p)` of `CreateScene`: the bitset whose bit `i` is
bit `i` of the integer `p`. -/
def Attributes.ofInt (p : Nat) : Attributes := fun i => p.testBit i.val

/-- The members `attributes_` and `state_` of `class Piece`. -/
structure Piece where
  attributes_ : Attributes
  state_ : PieceState

/-- Modelled from the spec: the constructor of `Piece`, whose body is not among the
sources; it stores the attributes and every piece is created in state Free. -/
def Piece.new (attributes : Attributes) : Piece :=
  { attributes_ := attributes, state_ := PieceState.FREE }

/-- The inline `Piece::GetAttribute`: `attributes_[index]`. -/
def Piece.GetAttribute (self : Piece) (index : Fin 4) : Bool := self.attributes_ index

/-- Modelled from the spec: `Piece::GetState`, which is not among the sources; it
reads `state_`. -/
def Piece.GetState (self : Piece) : PieceState := self.state_

/-- Modelled from the spec: `Piece::ToInt`, which is not among the sources; it reads
back the four attribute bits as an integer, bit `i` weighing `2 ^ i`. -/
def Piece.ToInt (self : Piece) : Int :=
  (if self.GetAttribute 0 then 1 else 0) + (if self.GetAttribute 1 then 2 else 0)
    + (if self.GetAttribute 2 then 4 else 0) + (if self.GetAttribute 3 then 8 else 0)

/-- Modelled from the spec: `Piece::Select`, which is not among the sources; it sets
the state of the piece to SELECTED. -/
def Piece.Select (self : Piece) : Piece := { self with state_ := PieceState.SELECTED }

/-- Modelled from the spec: `Piece::Deselect`, which is not among the sources; it
sets the state of the piece to FREE. -/
def Piece.Deselect (self : Piece) : Piece := { self with state_ := PieceState.FREE }

/-- A non-null `Piece*`: the position of the piece in `world_.pieces_`. -/
abbrev PiecePtr := Fin NUM_PIECES

/-- Modelled from the spec: `class Board` of `board.h`, which is not among the
sources; a 4×4 grid whose cells are empty or refer to a piece. -/
structure Board where
  grid : Fin 4 → Fin 4 → Option PiecePtr

/-- The members of `MasterControl` that the turn machine and the selection use;
`pieces_` and `board_` are the ones of `world_`. -/
structure MasterControl where
  gameState_ : GameState
  selectionMode_ : SelectionMode
  selectedPiece_ : Option PiecePtr
  lastSelectedPiece_ : Option PiecePtr
  pieces_ : PiecePtr → Piece
  board_ : Board

/-- The order in which `for (Piece* piece: world_.pieces_)` meets the pieces. -/
def allPieces : List PiecePtr := [0, 1, 2, 3, 4, 5, 6, 7, 8, 9, 10, 11, 12, 13, 14, 15]

/-- The call `world_.pieces_.At(selectInt)`: the index is checked against the size. -/
def At (selectInt : Int) : Except Fault PiecePtr :=
  if h : 0 ≤ selectInt ∧ selectInt < NUM_PIECES then
    Except.ok ⟨selectInt.toNat, by omega⟩
  else
    Except.error Fault.indexOutOfRange

/-! ## Operations -/

/-- The piece list that the loop of `MasterControl::CreateScene` builds: the piece
pushed at position `p` is `new Piece(Piece::Attributes(p))`. -/
def CreateScene_pieces : PiecePtr → Piece := fun p => Piece.new (Attributes.ofInt p.val)

/-- The state after the constructor `MasterControl::MasterControl` and `CreateScene`:
`gameState_` is `PLAYER1PICKS`; the two piece pointers are null, nothing being selected
yet; the board is empty. The selection mode is not set by the constructor and is taken
to be the zero value `SM_CAMERA`. -/
def MasterControl.init : MasterControl :=
  { gameState_ := GameState.PLAYER1PICKS
    selectionMode_ := SelectionMode.SM_CAMERA
    selectedPiece_ := none
    lastSelectedPiece_ := none
    pieces_ := CreateScene_pieces
    board_ := { grid := fun _ _ => none } }

/-- The method `MasterControl::DeselectPiece`. -/
def DeselectPiece (s : MasterControl) : MasterControl :=
  match s.selectedPiece_ with
  | some sel =>
      { s with
        lastSelectedPiece_ := some sel
        pieces_ := Function.update s.pieces_ sel (s.pieces_ sel).Deselect
        selectedPiece_ := none }
  | none => { s with selectedPiece_ := none }

/-- The method `MasterControl::SelectPiece`. -/
def SelectPiece (s : MasterControl) (piece : PiecePtr) : MasterControl :=
  let s1 := DeselectPiece s
  { s1 with
    selectedPiece_ := some piece
    pieces_ := Function.update s1.pieces_ piece (s1.pieces_ piece).Select }

/-- One pass of the body of the `for` loop of `CameraSelectPiece`. -/
def CameraSelectPiece_body {D : Type} [LinearOrder D] (dist : PiecePtr → D)
    (pieces : PiecePtr → Piece) (nearest : Option PiecePtr) (piece : PiecePtr) :
    Option PiecePtr :=
  match nearest with
  | none => some piece
  | some n =>
      if ((pieces piece).GetState = PieceState.FREE
            ∨ (pieces piece).GetState = PieceState.SELECTED)
          ∧ dist piece < dist n then
        some piece
      else
        some n

/-- The value of `nearest` after the `for` loop of `CameraSelectPiece`. -/
def CameraSelectPiece_nearest {D : Type} [LinearOrder D] (dist : PiecePtr → D)
    (s : MasterControl) : Option PiecePtr :=
  allPieces.foldl (CameraSelectPiece_body dist s.pieces_) s.selectedPiece_

/-- The method `MasterControl::CameraSelectPiece`; `lame` is what `Lame()` returns.
After the loop `nearest` is not null, the list having 16 pieces
(`CameraSelectPiece_nearest_isSome`), so that `SelectPiece` is never called on a null
pointer. -/
def CameraSelectPiece {D : Type} [LinearOrder D] (lame : Bool) (dist : PiecePtr → D)
    (s : MasterControl) : MasterControl :=
  if lame then s
  else
    let nearest := CameraSelectPiece_nearest dist s
    if nearest ≠ s.selectedPiece_ then
      match nearest with
      | some n => SelectPiece s n
      | none => s
    else s

/-- The method `MasterControl::SelectLastPiece`, with the boolean it returns. -/
def SelectLastPiece (s : MasterControl) : MasterControl × Bool :=
  match s.lastSelectedPiece_ with
  | some last => (SelectPiece s last, true)
  | none => (s, false)

/-- The body of the `while` loop of `StepSelectPiece`: the next value of `selectInt`. -/
def StepSelectPiece_body (next : Bool) (selectInt : Int) : Int :=
  if next then
    if selectInt - 1 < 0 then (NUM_PIECES : Int) - 1 else selectInt - 1
  else
    if selectInt + 1 > (NUM_PIECES : Int) - 1 then 0 else selectInt + 1

/-- The `while` loop of `StepSelectPiece`: the value of `selectInt` when the loop is
left; `fuel` bounds the number of times the condition is evaluated. -/
def StepSelectPiece_loop (pieces : PiecePtr → Piece) (next : Bool) :
    Nat → Int → Except Fault Int
  | 0, _ => Except.error Fault.outOfFuel
  | fuel + 1, selectInt =>
      match At selectInt with
      | Except.error e => Except.error e
      | Except.ok p =>
          if (pieces p).GetState ≠ PieceState.FREE then
            StepSelectPiece_loop pieces next fuel (StepSelectPiece_body next selectInt)
          else
            Except.ok selectInt

/-- The method `MasterControl::StepSelectPiece`. -/
def StepSelectPiece {D : Type} [LinearOrder D] (lame : Bool) (dist : PiecePtr → D)
    (fuel : Nat) (next : Bool) (s : MasterControl) : Except Fault MasterControl :=
  let s1 := { s with selectionMode_ := SelectionMode.SM_STEP }
  match s1.selectedPiece_ with
  | some sel =>
      match StepSelectPiece_loop s1.pieces_ next fuel (s1.pieces_ sel).ToInt with
      | Except.error e => Except.error e
      | Except.ok selectInt =>
          match At selectInt with
          | Except.error e => Except.error e
          | Except.ok p => Except.ok (SelectPiece s1 p)
  | none =>
      let r := SelectLastPiece s1
      if !r.2 then Except.ok (CameraSelectPiece lame dist r.1) else Except.ok r.1

/-- The method `MasterControl::NextPhase`. -/
def NextPhase {D : Type} [LinearOrder D] (lame : Bool) (dist : PiecePtr → D)
    (s : MasterControl) : MasterControl :=
  if s.gameState_ = GameState.QUATTER then s
  else
    match s.gameState_ with
    | GameState.PLAYER1PICKS => { s with gameState_ := GameState.PLAYER2PUTS }
    | GameState.PLAYER2PUTS =>
        CameraSelectPiece lame dist { s with gameState_ := GameState.PLAYER2PICKS }
    | GameState.PLAYER2PICKS => { s with gameState_ := GameState.PLAYER1PUTS }
    | GameState.PLAYER1PUTS =>
        CameraSelectPiece lame dist { s with gameState_ := GameState.PLAYER1PICKS }
    | _ => s

/-- The method `MasterControl::Quatter`. -/
def Quatter (s : MasterControl) : MasterControl :=
  { s with gameState_ := GameState.QUATTER }

/-- The method `MasterControl::Reset`; `pieceReset` is `Piece::Reset` and `boardReset`
is `Board::Reset`, neither of which is among the sources. -/
def Reset (pieceReset : Piece → Piece) (boardReset : Board → Board)
    (s : MasterControl) : MasterControl :=
  { s with
    pieces_ := fun p => pieceReset (s.pieces_ p)
    board_ := boardReset s.board_
    selectionMode_ := SelectionMode.SM_CAMERA
    gameState_ := GameState.PLAYER1PICKS }

/-! ## Predicates of the specification and concrete states -/

/-- The successor of a phase in the cycle the specification gives,
Player1Picks → Player2Puts → Player2Picks → Player1Puts → Player1Picks; Quatter is
terminal. This follows the words of the specification, not the code. -/
def spec_successor : GameState → GameState
  | GameState.PLAYER1PICKS => GameState.PLAYER2PUTS
  | GameState.PLAYER2PUTS => GameState.PLAYER2PICKS
  | GameState.PLAYER2PICKS => GameState.PLAYER1PUTS
  | GameState.PLAYER1PUTS => GameState.PLAYER1PICKS
  | GameState.QUATTER => GameState.QUATTER

/-- The predicate of the specification: at most one piece has state SELECTED, and if
one has, it is `selectedPiece_`. -/
def OneSelected (s : MasterControl) : Prop :=
  (∀ p q : PiecePtr, (s.pieces_ p).GetState = PieceState.SELECTED →
      (s.pieces_ q).GetState = PieceState.SELECTED → p = q)
  ∧ (∀ p : PiecePtr, (s.pieces_ p).GetState = PieceState.SELECTED →
      s.selectedPiece_ = some p)

instance (s : MasterControl) : Decidable (OneSelected s) := by
  unfold OneSelected
  infer_instance

/-- The pieces proximity selection may choose according to the specification: those
in state FREE or SELECTED. -/
def Eligible (s : MasterControl) (p : PiecePtr) : Prop :=
  (s.pieces_ p).GetState = PieceState.FREE ∨ (s.pieces_ p).GetState = PieceState.SELECTED

instance (s : MasterControl) (p : PiecePtr) : Decidable (Eligible s p) := by
  unfold Eligible
  infer_instance

/-- The change of `selectInt` in one pass of the loop of `StepSelectPiece`, as a
residue modulo `NUM_PIECES`: `-1` when `next` is set, `+1` otherwise. Used to state
what the loop computes; `StepSelectPiece_body_val` relates it to the code. -/
def stepDelta (next : Bool) : PiecePtr := if next then -1 else 1

/-- The state after `CreateScene` with the given selection pointers and the given
state for every piece. -/
def stateOf (sel last : Option PiecePtr) (st : PiecePtr → PieceState) : MasterControl :=
  { MasterControl.init with
    selectedPiece_ := sel
    lastSelectedPiece_ := last
    pieces_ := fun p =>
      { attributes_ := (CreateScene_pieces p).attributes_, state_ := st p } }

/-- Piece 2 is selected for the first time, every other piece is free. -/
def exFresh : MasterControl :=
  stateOf (some 2) none (fun p => if p = 2 then PieceState.SELECTED else PieceState.FREE)

/-- Piece 3 is selected, pieces 0, 5, 10 and 15 are free, the others are on the
board. -/
def exMixed : MasterControl :=
  stateOf (some 3) (some 5)
    (fun p => if p = 3 then PieceState.SELECTED
      else if p.val % 5 = 0 then PieceState.FREE else PieceState.PUT)

/-- Nothing is selected; piece 0, the last one selected, is on the board, the others
are free. -/
def exLastPut : MasterControl :=
  stateOf none (some 0) (fun p => if p = 0 then PieceState.PUT else PieceState.FREE)

/-- Nothing is or was selected; piece 0 is on the board, the others are free. -/
def exSeedPut : MasterControl :=
  stateOf none none (fun p => if p = 0 then PieceState.PUT else PieceState.FREE)

/-- Piece 0, the last piece left, is selected; the fifteen others are on the board. -/
def exAllPut : MasterControl :=
  stateOf (some 0) none (fun p => if p = 0 then PieceState.SELECTED else PieceState.PUT)

/-- Camera distances that grow with the position of the piece: piece 0 is nearest. -/
def exDist : PiecePtr → Nat := fun p => p.val

/-! ## The phase is touched by `NextPhase`, `Quatter` and `Reset` only -/

/-- The method `DeselectPiece` leaves the phase alone. -/
theorem DeselectPiece_gameState (s : MasterControl) :
    (DeselectPiece s).gameState_ = s.gameState_ := by
  unfold DeselectPiece
  cases s.selectedPiece_ <;> rfl

/-- The method `SelectPiece` leaves the phase alone. -/
theorem SelectPiece_gameState (s : MasterControl) (p : PiecePtr) :
    (SelectPiece s p).gameState_ = s.gameState_ := by
  simp [SelectPiece, DeselectPiece_gameState]

/-- The method `CameraSelectPiece` leaves the phase alone. -/
theorem CameraSelectPiece_gameState {D : Type} [LinearOrder D] (lame : Bool)
    (dist : PiecePtr → D) (s : MasterControl) :
    (CameraSelectPiece lame dist s).gameState_ = s.gameState_ := by
  unfold CameraSelectPiece
  split
  · rfl
  · dsimp only
    split
    · split
      · exact SelectPiece_gameState _ _
      · rfl
    · rfl

/-- The phase after `NextPhase` is the successor the specification gives, whatever
the rest of the state. -/
theorem NextPhase_gameState {D : Type} [LinearOrder D] (lame : Bool)
    (dist : PiecePtr → D) (s : MasterControl) :
    (NextPhase lame dist s).gameState_ = spec_successor s.gameState_ := by
  unfold NextPhase
  cases h : s.gameState_ <;> simp [spec_successor, CameraSelectPiece_gameState, h]

/-- Four steps along the cycle of the specification return to the start. -/
theorem spec_successor_four (g : GameState) :
    spec_successor (spec_successor (spec_successor (spec_successor g))) = g := by
  cases g <;> rfl

/-! ## The loop of `StepSelectPiece` -/

/-- The call `At` succeeds on the position of a piece and returns that piece. -/
theorem At_val (p : PiecePtr) : At (p.val : Int) = Except.ok p := by
  have h : 0 ≤ (p.val : Int) ∧ (p.val : Int) < NUM_PIECES :=
    ⟨by omega, by exact_mod_cast p.isLt⟩
  simp [At, h]

/-- When `At` succeeds, its index is the position of the piece it returns. -/
theorem At_ok_val {i : Int} {p : PiecePtr} (h : At i = Except.ok p) : i = (p.val : Int) := by
  unfold At at h
  split at h
  · rename_i hr
    injection h with h
    subst h
    simp
    omega
  · cases h

/-- One pass of the loop body on an index in range is the addition of `stepDelta`
modulo `NUM_PIECES`. -/
theorem StepSelectPiece_body_val (next : Bool) (p : PiecePtr) :
    StepSelectPiece_body next (p.val : Int) = ((p + stepDelta next).val : Int) := by
  revert next p
  decide

/-- The two directions are opposite. -/
theorem stepDelta_neg (next : Bool) : stepDelta (!next) = - stepDelta next := by
  revert next; decide

/-- Fewer than 16 steps in one direction do not come back to the start. -/
theorem stepDelta_nsmul_ne_zero (next : Bool) (m : Nat) (h0 : 0 < m) (h16 : m < 16) :
    m • stepDelta next ≠ 0 := by
  have : ∀ (b : Bool) (m : Fin 16), m ≠ 0 → m.val • stepDelta b ≠ 0 := by decide
  have h := this next ⟨m, h16⟩ (by intro h; have := congrArg Fin.val h; simp at this; omega)
  exact h

/-- Every position is reached from every other in fewer than 16 steps, in either
direction. -/
theorem stepDelta_reach (next : Bool) (p f : PiecePtr) :
    ∃ k : Nat, k < 16 ∧ p + k • stepDelta next = f := by
  cases next
  · refine ⟨(f - p).val, (f - p).isLt, ?_⟩
    simp [stepDelta]
  · refine ⟨(p - f).val, (p - f).isLt, ?_⟩
    simp [stepDelta]

/-- The identifier `ToInt` of a piece is the position of some piece: it lies in 0..15. -/
theorem Piece_ToInt_ptr (piece : Piece) : ∃ q : PiecePtr, piece.ToInt = (q.val : Int) := by
  have h : 0 ≤ piece.ToInt ∧ piece.ToInt < 16 := by
    unfold Piece.ToInt
    constructor <;> split_ifs <;> omega
  exact ⟨⟨piece.ToInt.toNat, by show _ < 16; omega⟩, by simp; omega⟩


/-- When the first free piece in the direction of the scan is `k` steps away and
the bound allows more than `k` tests, the loop is left with the index of that piece. -/
theorem StepSelectPiece_loop_spec (pieces : PiecePtr → Piece) (next : Bool) (k : Nat) :
    ∀ (fuel : Nat) (p : PiecePtr),
      (∀ j, j < k → (pieces (p + j • stepDelta next)).GetState ≠ PieceState.FREE) →
      (pieces (p + k • stepDelta next)).GetState = PieceState.FREE →
      k < fuel →
      StepSelectPiece_loop pieces next fuel (p.val : Int)
        = Except.ok (((p + k • stepDelta next).val : Nat) : Int) := by
  induction k with
  | zero =>
      intro fuel p _ hfree hfuel
      obtain ⟨fuel, rfl⟩ : ∃ n, fuel = n + 1 := ⟨fuel - 1, by omega⟩
      simp only [zero_smul, add_zero] at hfree ⊢
      simp [StepSelectPiece_loop, At_val, hfree]
  | succ k ih =>
      intro fuel p hnot hfree hfuel
      obtain ⟨fuel, rfl⟩ : ∃ n, fuel = n + 1 := ⟨fuel - 1, by omega⟩
      have h0 : (pieces p).GetState ≠ PieceState.FREE := by
        have := hnot 0 (by omega)
        simpa using this
      have hstep : ∀ j : Nat, p + stepDelta next + j • stepDelta next
          = p + (j + 1) • stepDelta next := by
        intro j
        rw [succ_nsmul]
        abel
      simp only [StepSelectPiece_loop, At_val, h0, ne_eq, not_false_eq_true, if_true,
        StepSelectPiece_body_val]
      rw [ih fuel (p + stepDelta next) ?_ ?_ (by omega), hstep]
      · intro j hj
        rw [hstep]
        exact hnot (j + 1) (by omega)
      · rw [hstep]
        exact hfree

/-- When some piece is free, the loop is left within 16 tests, at the first free
piece in the direction of the scan. -/
theorem StepSelectPiece_loop_finds (pieces : PiecePtr → Piece) (next : Bool)
    (p : PiecePtr) (hfree : ∃ f, (pieces f).GetState = PieceState.FREE) :
    ∃ k : Nat, k < 16
      ∧ (∀ j, j < k → (pieces (p + j • stepDelta next)).GetState ≠ PieceState.FREE)
      ∧ (pieces (p + k • stepDelta next)).GetState = PieceState.FREE
      ∧ ∀ fuel, 16 ≤ fuel → StepSelectPiece_loop pieces next fuel (p.val : Int)
          = Except.ok (((p + k • stepDelta next).val : Nat) : Int) := by
  obtain ⟨f, hf⟩ := hfree
  obtain ⟨k, hk, hkf⟩ := stepDelta_reach next p f
  have hex : ∃ k, (pieces (p + k • stepDelta next)).GetState = PieceState.FREE :=
    ⟨k, by rw [hkf]; exact hf⟩
  classical
  refine ⟨Nat.find hex, ?_, ?_, Nat.find_spec hex, ?_⟩
  · exact lt_of_le_of_lt (Nat.find_min' hex (by rw [hkf]; exact hf)) hk
  · intro j hj
    exact Nat.find_min hex hj
  · intro fuel hfuel
    apply StepSelectPiece_loop_spec
    · intro j hj
      exact Nat.find_min hex hj
    · exact Nat.find_spec hex
    · have := lt_of_le_of_lt (Nat.find_min' hex (by rw [hkf]; exact hf)) hk
      omega

/-- When no piece is free, the loop uses up every bound: it is never left, and
never with an index out of range. -/
theorem StepSelectPiece_loop_no_free (pieces : PiecePtr → Piece) (next : Bool)
    (hnone : ∀ p, (pieces p).GetState ≠ PieceState.FREE) (fuel : Nat) :
    ∀ p : PiecePtr, StepSelectPiece_loop pieces next fuel (p.val : Int)
      = Except.error Fault.outOfFuel := by
  induction fuel with
  | zero => intro p; rfl
  | succ fuel ih =>
      intro p
      simp only [StepSelectPiece_loop, At_val, hnone p, ne_eq, not_false_eq_true, if_true,
        StepSelectPiece_body_val]
      exact ih _

/-- Whenever the loop is left, it is left at the index of a free piece. -/
theorem StepSelectPiece_loop_sound (pieces : PiecePtr → Piece) (next : Bool) (fuel : Nat) :
    ∀ (i r : Int), StepSelectPiece_loop pieces next fuel i = Except.ok r →
      ∃ q : PiecePtr, At r = Except.ok q ∧ (pieces q).GetState = PieceState.FREE := by
  induction fuel with
  | zero => intro i r h; cases h
  | succ fuel ih =>
      intro i r h
      unfold StepSelectPiece_loop at h
      split at h
      · cases h
      · rename_i q hq
        split at h
        · exact ih _ _ h
        · rename_i hfree
          injection h with h
          subst h
          exact ⟨q, hq, by simpa using hfree⟩

/-! ## What `DeselectPiece` and `SelectPiece` do to the pieces -/

/-- Two pieces with the same attributes and the same state are equal. -/
theorem Piece_eq_of (a b : Piece) (h1 : a.attributes_ = b.attributes_)
    (h2 : a.GetState = b.GetState) : a = b := by
  cases a; cases b
  simp only [Piece.GetState] at h1 h2
  subst h1; subst h2
  rfl

/-- The identifier of a piece depends on its attributes only. -/
theorem Piece_ToInt_congr (a b : Piece) (h : a.attributes_ = b.attributes_) :
    a.ToInt = b.ToInt := by
  unfold Piece.ToInt Piece.GetAttribute
  rw [h]

/-- Going `k` steps one way and `j` steps back is going `k - j` steps. -/
theorem stepDelta_back (next : Bool) (p : PiecePtr) (k j : Nat) (hj : j ≤ k) :
    p + k • stepDelta next + j • stepDelta (!next) = p + (k - j) • stepDelta next := by
  have hk : k • stepDelta next = (k - j) • stepDelta next + j • stepDelta next := by
    rw [← add_nsmul, Nat.sub_add_cancel hj]
  rw [stepDelta_neg, hk, smul_neg]
  abel

/-- The second half of `OneSelected` implies the first. -/
theorem OneSelected_iff (s : MasterControl) :
    OneSelected s ↔ ∀ p : PiecePtr, (s.pieces_ p).GetState = PieceState.SELECTED →
      s.selectedPiece_ = some p := by
  constructor
  · exact fun h => h.2
  · intro h
    refine ⟨fun p q hp hq => ?_, h⟩
    have := (h p hp).symm.trans (h q hq)
    exact Option.some.inj this

/-- After `DeselectPiece` no piece is selected. -/
theorem DeselectPiece_selectedPiece (s : MasterControl) :
    (DeselectPiece s).selectedPiece_ = none := by
  unfold DeselectPiece
  cases s.selectedPiece_ <;> rfl

/-- The state of every piece after `DeselectPiece`. -/
theorem DeselectPiece_state (s : MasterControl) (i : PiecePtr) :
    ((DeselectPiece s).pieces_ i).GetState
      = if s.selectedPiece_ = some i then PieceState.FREE else (s.pieces_ i).GetState := by
  unfold DeselectPiece
  cases h : s.selectedPiece_ with
  | none => simp
  | some sel =>
      by_cases hi : sel = i
      · subst hi
        simp [Piece.GetState, Piece.Deselect]
      · have hi2 : i ≠ sel := fun h => hi h.symm
        simp [hi, Function.update_noteq hi2]

/-- The method `DeselectPiece` leaves the attributes of every piece alone. -/
theorem DeselectPiece_attributes (s : MasterControl) (i : PiecePtr) :
    ((DeselectPiece s).pieces_ i).attributes_ = (s.pieces_ i).attributes_ := by
  unfold DeselectPiece
  cases h : s.selectedPiece_ with
  | none => simp
  | some sel =>
      by_cases hi : i = sel
      · subst hi
        simp [Piece.Deselect]
      · simp [Function.update_noteq hi]

/-- After `SelectPiece` its argument is the selected piece. -/
theorem SelectPiece_selectedPiece (s : MasterControl) (p : PiecePtr) :
    (SelectPiece s p).selectedPiece_ = some p := rfl

/-- The state of every piece after `SelectPiece`. -/
theorem SelectPiece_state (s : MasterControl) (p i : PiecePtr) :
    ((SelectPiece s p).pieces_ i).GetState
      = if i = p then PieceState.SELECTED
        else if s.selectedPiece_ = some i then PieceState.FREE
        else (s.pieces_ i).GetState := by
  by_cases hi : i = p
  · subst hi
    simp [SelectPiece, Piece.GetState, Piece.Select]
  · simp only [SelectPiece, Function.update_noteq hi, hi, if_false]
    exact DeselectPiece_state s i

/-- The method `SelectPiece` leaves the attributes of every piece alone. -/
theorem SelectPiece_attributes (s : MasterControl) (p i : PiecePtr) :
    ((SelectPiece s p).pieces_ i).attributes_ = (s.pieces_ i).attributes_ := by
  by_cases hi : i = p
  · subst hi
    simp [SelectPiece, Piece.Select, DeselectPiece_attributes]
  · simp only [SelectPiece, Function.update_noteq hi]
    exact DeselectPiece_attributes s i

/-- The method `DeselectPiece` preserves `OneSelected`. -/
theorem DeselectPiece_OneSelected (s : MasterControl) (h : OneSelected s) :
    OneSelected (DeselectPiece s) := by
  rw [OneSelected_iff] at h ⊢
  intro p hp
  rw [DeselectPiece_state] at hp
  split at hp
  · cases hp
  · rename_i hne
    exact absurd (h p hp) hne

/-- The method `SelectPiece` preserves `OneSelected`. -/
theorem SelectPiece_OneSelected (s : MasterControl) (piece : PiecePtr)
    (h : OneSelected s) : OneSelected (SelectPiece s piece) := by
  rw [OneSelected_iff] at h ⊢
  intro p hp
  rw [SelectPiece_state] at hp
  rw [SelectPiece_selectedPiece]
  split at hp
  · rename_i h1; rw [h1]
  · split at hp
    · cases hp
    · rename_i hne
      exact absurd (h p hp) hne

/-- The method `SelectLastPiece` preserves `OneSelected`. -/
theorem SelectLastPiece_OneSelected (s : MasterControl) (h : OneSelected s) :
    OneSelected (SelectLastPiece s).1 := by
  unfold SelectLastPiece
  cases s.lastSelectedPiece_ with
  | none => exact h
  | some last => exact SelectPiece_OneSelected s last h

/-- The method `CameraSelectPiece` preserves `OneSelected`. -/
theorem CameraSelectPiece_OneSelected {D : Type} [LinearOrder D] (lame : Bool)
    (dist : PiecePtr → D) (s : MasterControl) (h : OneSelected s) :
    OneSelected (CameraSelectPiece lame dist s) := by
  unfold CameraSelectPiece
  split
  · exact h
  · dsimp only
    split
    · split
      · exact SelectPiece_OneSelected s _ h
      · exact h
    · exact h

/-- The predicate `OneSelected` reads the pieces and `selectedPiece_` only. -/
theorem OneSelected_congr (s t : MasterControl) (hp : t.pieces_ = s.pieces_)
    (hs : t.selectedPiece_ = s.selectedPiece_) (h : OneSelected s) : OneSelected t := by
  unfold OneSelected at h ⊢
  rw [hp, hs]
  exact h

/-- The method `NextPhase` preserves `OneSelected`. -/
theorem NextPhase_OneSelected {D : Type} [LinearOrder D] (lame : Bool)
    (dist : PiecePtr → D) (s : MasterControl) (h : OneSelected s) :
    OneSelected (NextPhase lame dist s) := by
  unfold NextPhase
  split
  · exact h
  · split
    · exact OneSelected_congr s _ rfl rfl h
    · exact CameraSelectPiece_OneSelected _ _ _ (OneSelected_congr s _ rfl rfl h)
    · exact OneSelected_congr s _ rfl rfl h
    · exact CameraSelectPiece_OneSelected _ _ _ (OneSelected_congr s _ rfl rfl h)
    · exact h

/-- The method `StepSelectPiece` preserves `OneSelected` whenever it returns. -/
theorem StepSelectPiece_OneSelected {D : Type} [LinearOrder D] (lame : Bool)
    (dist : PiecePtr → D) (fuel : Nat) (next : Bool) (s t : MasterControl)
    (h : OneSelected s) (ht : StepSelectPiece lame dist fuel next s = Except.ok t) :
    OneSelected t := by
  have h1 : OneSelected { s with selectionMode_ := SelectionMode.SM_STEP } :=
    OneSelected_congr s _ rfl rfl h
  unfold StepSelectPiece at ht
  dsimp only at ht
  split at ht
  · split at ht
    · cases ht
    · split at ht
      · cases ht
      · injection ht with ht
        subst ht
        exact SelectPiece_OneSelected _ _ h1
  · split at ht
    · injection ht with ht
      subst ht
      exact CameraSelectPiece_OneSelected _ _ _ (SelectLastPiece_OneSelected _ h1)
    · injection ht with ht
      subst ht
      exact SelectLastPiece_OneSelected _ h1

/-- The method `StepSelectPiece` returns, within 16 tests of the loop condition,
when nothing is selected or some piece is free. -/
theorem StepSelectPiece_returns {D : Type} [LinearOrder D] (lame : Bool)
    (dist : PiecePtr → D) (fuel : Nat) (next : Bool) (s : MasterControl)
    (hfuel : 16 ≤ fuel)
    (h : s.selectedPiece_ = none ∨ ∃ f, (s.pieces_ f).GetState = PieceState.FREE) :
    ∃ t, StepSelectPiece lame dist fuel next s = Except.ok t := by
  unfold StepSelectPiece
  dsimp only
  cases hsel : s.selectedPiece_ with
  | none =>
      dsimp only
      split
      · exact ⟨_, rfl⟩
      · exact ⟨_, rfl⟩
  | some sel =>
      dsimp only
      have hf : ∃ f, (s.pieces_ f).GetState = PieceState.FREE := by
        rcases h with h | h
        · rw [hsel] at h; cases h
        · exact h
      obtain ⟨q, hq⟩ := Piece_ToInt_ptr (s.pieces_ sel)
      obtain ⟨k, _, _, _, hk⟩ := StepSelectPiece_loop_finds s.pieces_ next q hf
      rw [hq, hk fuel hfuel]
      dsimp only
      rw [At_val]
      exact ⟨_, rfl⟩

/-! ## Proximity selection and step selection -/

/-- The `for` loop over `world_.pieces_` meets every piece. -/
theorem mem_allPieces (p : PiecePtr) : p ∈ allPieces := by
  revert p
  decide

/-- After the `for` loop of `CameraSelectPiece` the pointer `nearest` is not null. -/
theorem CameraSelectPiece_nearest_isSome {D : Type} [LinearOrder D]
    (dist : PiecePtr → D) (s : MasterControl) :
    ∃ m : PiecePtr, CameraSelectPiece_nearest dist s = some m := by
  have hsome : ∀ (l : List PiecePtr) (n : PiecePtr),
      ∃ m, l.foldl (CameraSelectPiece_body dist s.pieces_) (some n) = some m := by
    intro l
    induction l with
    | nil => exact fun n => ⟨n, rfl⟩
    | cons a l ih =>
        intro n
        simp only [List.foldl_cons, CameraSelectPiece_body]
        split
        · exact ih a
        · exact ih n
  unfold CameraSelectPiece_nearest
  cases s.selectedPiece_ with
  | none => exact hsome allPieces.tail 0
  | some sel => exact hsome allPieces sel

/-- Started from an eligible piece, the `for` loop of `CameraSelectPiece` ends on an
eligible piece that is at least as near as the start and as every eligible piece met. -/
theorem CameraSelectPiece_fold_min {D : Type} [LinearOrder D] (dist : PiecePtr → D)
    (s : MasterControl) (l : List PiecePtr) :
    ∀ n : PiecePtr, Eligible s n →
      ∃ m : PiecePtr, l.foldl (CameraSelectPiece_body dist s.pieces_) (some n) = some m
        ∧ Eligible s m ∧ dist m ≤ dist n
        ∧ ∀ q, q ∈ l → Eligible s q → dist m ≤ dist q := by
  induction l with
  | nil =>
      intro n hn
      exact ⟨n, rfl, hn, le_refl _, fun q hq => absurd hq (List.not_mem_nil q)⟩
  | cons a l ih =>
      intro n hn
      by_cases hc : ((s.pieces_ a).GetState = PieceState.FREE
          ∨ (s.pieces_ a).GetState = PieceState.SELECTED) ∧ dist a < dist n
      · obtain ⟨m, hm, hmel, hmle, hmall⟩ := ih a hc.1
        refine ⟨m, ?_, hmel, le_trans hmle (le_of_lt hc.2), ?_⟩
        · simp only [List.foldl_cons, CameraSelectPiece_body, if_pos hc]
          exact hm
        · intro q hq hqel
          rcases List.mem_cons.mp hq with h | h
          · rw [h]; exact hmle
          · exact hmall q h hqel
      · obtain ⟨m, hm, hmel, hmle, hmall⟩ := ih n hn
        refine ⟨m, ?_, hmel, hmle, ?_⟩
        · simp only [List.foldl_cons, CameraSelectPiece_body, if_neg hc]
          exact hm
        · intro q hq hqel
          rcases List.mem_cons.mp hq with h | h
          · subst h
            have : ¬ dist q < dist n := fun hlt => hc ⟨hqel, hlt⟩
            exact le_trans hmle (not_lt.mp this)
          · exact hmall q h hqel

/-- When the piece the search starts from (the selected piece, or piece 0 when
nothing is selected) is FREE or SELECTED, `CameraSelectPiece` selects a nearest piece
among those that are FREE or SELECTED. -/
theorem CameraSelectPiece_nearest_of_seed {D : Type} [LinearOrder D]
    (dist : PiecePtr → D) (s : MasterControl)
    (hseed : (∃ sel, s.selectedPiece_ = some sel ∧ Eligible s sel)
      ∨ (s.selectedPiece_ = none ∧ Eligible s 0)) :
    ∃ m : PiecePtr, (CameraSelectPiece false dist s).selectedPiece_ = some m
      ∧ Eligible s m ∧ ∀ q, Eligible s q → dist m ≤ dist q := by
  have hn : ∃ m : PiecePtr, CameraSelectPiece_nearest dist s = some m
      ∧ Eligible s m ∧ ∀ q, Eligible s q → dist m ≤ dist q := by
    rcases hseed with ⟨sel, hsel, hel⟩ | ⟨hsel, hel⟩
    · obtain ⟨m, hm, hmel, _, hmall⟩ := CameraSelectPiece_fold_min dist s allPieces sel hel
      refine ⟨m, ?_, hmel, fun q hq => hmall q (mem_allPieces q) hq⟩
      unfold CameraSelectPiece_nearest
      rw [hsel]
      exact hm
    · obtain ⟨m, hm, hmel, hm0, hmall⟩ :=
        CameraSelectPiece_fold_min dist s allPieces.tail 0 hel
      refine ⟨m, ?_, hmel, ?_⟩
      · unfold CameraSelectPiece_nearest
        rw [hsel]
        exact hm
      · intro q hq
        have hmem : q ∈ (0 : PiecePtr) :: allPieces.tail := mem_allPieces q
        rcases List.mem_cons.mp hmem with h | h
        · rw [h]; exact hm0
        · exact hmall q h hq
  obtain ⟨m, hm, hmel, hmall⟩ := hn
  refine ⟨m, ?_, hmel, hmall⟩
  unfold CameraSelectPiece
  simp only [Bool.false_eq_true, if_false, hm]
  split
  · rfl
  · rename_i h
    simp only [ne_eq, not_not] at h
    exact h.symm

/-- When a piece is selected and `StepSelectPiece` returns, the piece it has
selected was FREE before the call. -/
theorem StepSelectPiece_selected_lands_free {D : Type} [LinearOrder D] (lame : Bool)
    (dist : PiecePtr → D) (fuel : Nat) (next : Bool) (s t : MasterControl)
    (sel : PiecePtr) (hsel : s.selectedPiece_ = some sel)
    (ht : StepSelectPiece lame dist fuel next s = Except.ok t) :
    ∃ q : PiecePtr, t.selectedPiece_ = some q
      ∧ (s.pieces_ q).GetState = PieceState.FREE := by
  unfold StepSelectPiece at ht
  simp only [hsel] at ht
  split at ht
  · cases ht
  · rename_i r hr
    obtain ⟨q, hq, hfree⟩ := StepSelectPiece_loop_sound _ _ _ _ _ hr
    rw [hq] at ht
    simp only at ht
    injection ht with ht
    subst ht
    exact ⟨q, rfl, hfree⟩

/-- When a piece is selected and some piece is free, `StepSelectPiece` returns
and selects the first free piece met from the identifier of the selection in the
direction of the scan. -/
theorem StepSelectPiece_selected_first_free {D : Type} [LinearOrder D] (lame : Bool)
    (dist : PiecePtr → D) (fuel : Nat) (next : Bool) (s : MasterControl)
    (sel start : PiecePtr) (hfuel : 16 ≤ fuel)
    (hid : (s.pieces_ sel).ToInt = (start.val : Int))
    (hsel : s.selectedPiece_ = some sel)
    (hfree : ∃ f : PiecePtr, (s.pieces_ f).GetState = PieceState.FREE) :
    ∃ k : Nat, k < 16
      ∧ (∀ j, j < k →
          (s.pieces_ (start + j • stepDelta next)).GetState ≠ PieceState.FREE)
      ∧ (s.pieces_ (start + k • stepDelta next)).GetState = PieceState.FREE
      ∧ StepSelectPiece lame dist fuel next s
          = Except.ok (SelectPiece { s with selectionMode_ := SelectionMode.SM_STEP }
              (start + k • stepDelta next)) := by
  obtain ⟨k, hk16, hmin, hkfree, hloop⟩ :=
    StepSelectPiece_loop_finds s.pieces_ next start hfree
  refine ⟨k, hk16, hmin, hkfree, ?_⟩
  unfold StepSelectPiece
  simp only [hsel, hid, hloop fuel hfuel, At_val]

/-- When a piece is selected and no piece is free, `StepSelectPiece` uses up every
bound on its loop: it does not return. -/
theorem StepSelectPiece_outOfFuel_of_no_free {D : Type} [LinearOrder D] (lame : Bool)
    (dist : PiecePtr → D) (fuel : Nat) (next : Bool) (s : MasterControl)
    (sel : PiecePtr) (hsel : s.selectedPiece_ = some sel)
    (hnone : ∀ p : PiecePtr, (s.pieces_ p).GetState ≠ PieceState.FREE) :
    StepSelectPiece lame dist fuel next s = Except.error Fault.outOfFuel := by
  obtain ⟨q, hq⟩ := Piece_ToInt_ptr (s.pieces_ sel)
  unfold StepSelectPiece
  simp only [hsel, hq, StepSelectPiece_loop_no_free s.pieces_ next hnone fuel q]

/-! ## The claims -/

/-- Claim C1: for every phase other than QUATTER, `NextPhase` moves to the successor
of the phase in the cycle PLAYER1PICKS → PLAYER2PUTS → PLAYER2PICKS → PLAYER1PUTS →
PLAYER1PICKS, the phase after it is again not QUATTER, and four calls return to the
phase they started from; starting from PLAYER1PICKS, the phase the constructor sets,
the four calls visit PLAYER2PUTS, PLAYER2PICKS, PLAYER1PUTS and PLAYER1PICKS in that
order. This holds whatever `Lame()` returns and wherever the camera is at each call. -/
theorem NextPhase_cycle {D : Type} [LinearOrder D] (l1 l2 l3 l4 : Bool)
    (d1 d2 d3 d4 : PiecePtr → D) (s : MasterControl)
    (h : s.gameState_ ≠ GameState.QUATTER) :
    (NextPhase l1 d1 s).gameState_ = spec_successor s.gameState_
    ∧ (NextPhase l1 d1 s).gameState_ ≠ GameState.QUATTER
    ∧ (NextPhase l4 d4 (NextPhase l3 d3 (NextPhase l2 d2 (NextPhase l1 d1 s)))).gameState_
        = s.gameState_
    ∧ (s.gameState_ = GameState.PLAYER1PICKS →
        (NextPhase l1 d1 s).gameState_ = GameState.PLAYER2PUTS
        ∧ (NextPhase l2 d2 (NextPhase l1 d1 s)).gameState_ = GameState.PLAYER2PICKS
        ∧ (NextPhase l3 d3 (NextPhase l2 d2 (NextPhase l1 d1 s))).gameState_
            = GameState.PLAYER1PUTS
        ∧ (NextPhase l4 d4 (NextPhase l3 d3 (NextPhase l2 d2 (NextPhase l1 d1 s)))).gameState_
            = GameState.PLAYER1PICKS) := by
  simp only [NextPhase_gameState]
  refine ⟨trivial, ?_, spec_successor_four _, ?_⟩
  · revert h; cases s.gameState_ <;> simp [spec_successor]
  · intro h1; rw [h1]; simp [spec_successor]

/-- Claim C1 at the state the constructor and `CreateScene` leave: the phase is
PLAYER1PICKS and the four calls visit PLAYER2PUTS, PLAYER2PICKS, PLAYER1PUTS and
PLAYER1PICKS. -/
theorem NextPhase_cycle_witness :
    MasterControl.init.gameState_ = GameState.PLAYER1PICKS
    ∧ (NextPhase false exDist MasterControl.init).gameState_ = GameState.PLAYER2PUTS
    ∧ (NextPhase false exDist (NextPhase false exDist MasterControl.init)).gameState_
        = GameState.PLAYER2PICKS
    ∧ (NextPhase false exDist (NextPhase false exDist
        (NextPhase false exDist MasterControl.init))).gameState_ = GameState.PLAYER1PUTS
    ∧ (NextPhase false exDist (NextPhase false exDist (NextPhase false exDist
        (NextPhase false exDist MasterControl.init)))).gameState_
        = GameState.PLAYER1PICKS :=
  ⟨rfl, (NextPhase_cycle false false false false exDist exDist exDist exDist
    MasterControl.init (by decide)).2.2.2 rfl⟩

/-- Claim C2: a state whose phase is QUATTER is left unchanged, in every field, by any
number of calls of `NextPhase`, whatever `Lame()` returns and wherever the camera is
at each call; the list has one entry for each call. -/
theorem NextPhase_QUATTER_absorbing {D : Type} [LinearOrder D]
    (calls : List (Bool × (PiecePtr → D))) (s : MasterControl)
    (h : s.gameState_ = GameState.QUATTER) :
    calls.foldl (fun t c => NextPhase c.1 c.2 t) s = s := by
  induction calls with
  | nil => rfl
  | cons c cs ih =>
      have hc : NextPhase c.1 c.2 s = s := by simp [NextPhase, h]
      simp only [List.foldl_cons, hc]
      exact ih

/-- Claim C2 at the state `Quatter()` makes of a selection in progress: three calls of
`NextPhase` change nothing. -/
theorem NextPhase_QUATTER_absorbing_witness :
    (Quatter exMixed).gameState_ = GameState.QUATTER
    ∧ [(false, exDist), (true, exDist), (false, exDist)].foldl
        (fun t c => NextPhase c.1 c.2 t) (Quatter exMixed) = Quatter exMixed :=
  ⟨rfl, NextPhase_QUATTER_absorbing _ (Quatter exMixed) rfl⟩

/-- Claim C3: after `Reset`, from any state, the phase is PLAYER1PICKS, every piece is
the result of `Piece::Reset` on the piece it was, the board is the result of
`Board::Reset`, the selection mode is SM_CAMERA, and the next `NextPhase` yields
PLAYER2PUTS, also when `Reset` is called on a state that `Quatter()` has ended. -/
theorem Reset_rearms {D : Type} [LinearOrder D] (pieceReset : Piece → Piece)
    (boardReset : Board → Board) (lame : Bool) (dist : PiecePtr → D)
    (s : MasterControl) :
    (Reset pieceReset boardReset s).gameState_ = GameState.PLAYER1PICKS
    ∧ (∀ p : PiecePtr,
        (Reset pieceReset boardReset s).pieces_ p = pieceReset (s.pieces_ p))
    ∧ (Reset pieceReset boardReset s).board_ = boardReset s.board_
    ∧ (Reset pieceReset boardReset s).selectionMode_ = SelectionMode.SM_CAMERA
    ∧ (NextPhase lame dist (Reset pieceReset boardReset s)).gameState_
        = GameState.PLAYER2PUTS
    ∧ (Reset pieceReset boardReset (Quatter s)).gameState_ = GameState.PLAYER1PICKS
    ∧ (NextPhase lame dist (Reset pieceReset boardReset (Quatter s))).gameState_
        = GameState.PLAYER2PUTS := by
  refine ⟨rfl, fun _ => rfl, rfl, rfl, ?_, rfl, ?_⟩ <;> simp [NextPhase, Reset]

/-- Claim C4: the predicate `OneSelected` holds in the initial state and every one of
`SelectPiece`, `DeselectPiece`, `SelectLastPiece`, `CameraSelectPiece`,
`StepSelectPiece` and `NextPhase` preserves it, for every argument. `StepSelectPiece`
preserves it whenever it returns, and it returns, with 16 evaluations of the loop
condition at most, when nothing is selected or some piece is free. -/
theorem OneSelected_preserved {D : Type} [LinearOrder D] (lame : Bool)
    (dist : PiecePtr → D) (fuel : Nat) (next : Bool) (piece : PiecePtr)
    (s : MasterControl) (h : OneSelected s) :
    OneSelected MasterControl.init
    ∧ OneSelected (SelectPiece s piece)
    ∧ OneSelected (DeselectPiece s)
    ∧ OneSelected (SelectLastPiece s).1
    ∧ OneSelected (CameraSelectPiece lame dist s)
    ∧ (∀ t, StepSelectPiece lame dist fuel next s = Except.ok t → OneSelected t)
    ∧ (16 ≤ fuel →
        (s.selectedPiece_ = none ∨ ∃ f, (s.pieces_ f).GetState = PieceState.FREE) →
        ∃ t, StepSelectPiece lame dist fuel next s = Except.ok t ∧ OneSelected t)
    ∧ OneSelected (NextPhase lame dist s) := by
  refine ⟨?_, SelectPiece_OneSelected s piece h, DeselectPiece_OneSelected s h,
    SelectLastPiece_OneSelected s h, CameraSelectPiece_OneSelected lame dist s h,
    fun t ht => StepSelectPiece_OneSelected lame dist fuel next s t h ht, ?_,
    NextPhase_OneSelected lame dist s h⟩
  · rw [OneSelected_iff]
    intro p hp
    cases hp
  · intro hfuel hret
    obtain ⟨t, ht⟩ := StepSelectPiece_returns lame dist fuel next s hfuel hret
    exact ⟨t, ht, StepSelectPiece_OneSelected lame dist fuel next s t h ht⟩

/-- Claim C4 at a state with piece 3 selected and pieces on the board: the predicate
holds there and after `SelectPiece` of piece 10 and after `NextPhase`. -/
theorem OneSelected_preserved_witness :
    OneSelected exMixed
    ∧ OneSelected (SelectPiece exMixed 10)
    ∧ OneSelected (NextPhase false exDist exMixed) :=
  have hex : OneSelected exMixed := by decide
  have h := OneSelected_preserved false exDist 16 true 10 exMixed hex
  ⟨hex, h.2.1, h.2.2.2.2.2.2.2⟩

/-- Claim C5, as stated, fails: piece 2 is the selected piece and in state SELECTED,
no piece was selected before it, and `SelectPiece` of piece 2 changes
`lastSelectedPiece_` from null to piece 2. -/
theorem SelectPiece_again_changes_last :
    exFresh.selectedPiece_ = some 2
    ∧ (exFresh.pieces_ 2).GetState = PieceState.SELECTED
    ∧ exFresh.lastSelectedPiece_ = none
    ∧ (SelectPiece exFresh 2).lastSelectedPiece_ = some 2 :=
  ⟨rfl, rfl, rfl, rfl⟩

/-- Claim C5, amended: when piece `p` is the selected piece and in state SELECTED,
`SelectPiece` of `p` leaves `selectedPiece_`, the state of every piece and every other
field as they were, except `lastSelectedPiece_`, which becomes `p`. -/
theorem SelectPiece_again_sets_last (s : MasterControl) (p : PiecePtr)
    (hsel : s.selectedPiece_ = some p)
    (hst : (s.pieces_ p).GetState = PieceState.SELECTED) :
    SelectPiece s p = { s with lastSelectedPiece_ := some p } := by
  obtain ⟨g, m, sel, last, pieces, b⟩ := s
  simp only [Piece.GetState] at hsel hst
  subst hsel
  simp only [SelectPiece, DeselectPiece, Function.update_same, Function.update_idem]
  congr
  rw [Function.update_eq_self_iff]
  cases hp : pieces p
  simp only [hp] at hst
  subst hst
  rfl

/-- Claim C5, amended, at the state with piece 2 selected. -/
theorem SelectPiece_again_sets_last_witness :
    SelectPiece exFresh 2 = { exFresh with lastSelectedPiece_ := some 2 } :=
  SelectPiece_again_sets_last exFresh 2 rfl rfl

/-- Claim C6 fails on the code when nothing is selected. With piece 0 last selected
and now on the board, `StepSelectPiece` returns with piece 0 selected, through
`SelectLastPiece`; with no last selected piece and piece 0 on the board and nearest to
the camera, it returns with piece 0 selected, through `CameraSelectPiece`. In both
cases the piece was in state PUT before the call, not FREE. -/
theorem StepSelectPiece_lands_on_put (lame : Bool) (dist : PiecePtr → Nat) (fuel : Nat)
    (next : Bool) :
    (exLastPut.selectedPiece_ = none
      ∧ (exLastPut.pieces_ 0).GetState = PieceState.PUT
      ∧ ∃ t, StepSelectPiece lame dist fuel next exLastPut = Except.ok t
          ∧ t.selectedPiece_ = some 0
          ∧ (t.pieces_ 0).GetState = PieceState.SELECTED)
    ∧ (exSeedPut.selectedPiece_ = none
      ∧ (exSeedPut.pieces_ 0).GetState = PieceState.PUT
      ∧ ∃ t, StepSelectPiece false exDist fuel next exSeedPut = Except.ok t
          ∧ t.selectedPiece_ = some 0
          ∧ (t.pieces_ 0).GetState = PieceState.SELECTED) :=
  ⟨⟨rfl, rfl, _, rfl, rfl, rfl⟩, ⟨rfl, rfl, _, rfl, by decide, by decide⟩⟩

/-- Claim C7 fails on the code: with piece 0 selected and the fifteen other pieces on
the board, no piece is free, and `StepSelectPiece` does not return: whatever the
bound on the evaluations of the loop condition, the loop uses it up. -/
theorem StepSelectPiece_no_free_never_returns (lame : Bool) (dist : PiecePtr → Nat)
    (fuel : Nat) (next : Bool) :
    exAllPut.selectedPiece_ = some 0
    ∧ (exAllPut.pieces_ 0).GetState = PieceState.SELECTED
    ∧ (∀ p : PiecePtr, (exAllPut.pieces_ p).GetState ≠ PieceState.FREE)
    ∧ StepSelectPiece lame dist fuel next exAllPut = Except.error Fault.outOfFuel :=
  ⟨rfl, rfl, by decide,
    StepSelectPiece_outOfFuel_of_no_free lame dist fuel next exAllPut 0 rfl (by decide)⟩

/-- Claim C8 fails on the code: `Lame()` is false, nothing is selected, piece 0 is on
the board and nearest to the camera, piece 1 is free; `CameraSelectPiece` selects
piece 0, which was neither FREE nor SELECTED. -/
theorem CameraSelectPiece_selects_put :
    exSeedPut.selectedPiece_ = none
    ∧ (exSeedPut.pieces_ 0).GetState = PieceState.PUT
    ∧ (exSeedPut.pieces_ 1).GetState = PieceState.FREE
    ∧ exDist 0 < exDist 1
    ∧ (CameraSelectPiece false exDist exSeedPut).selectedPiece_ = some 0
    ∧ ((CameraSelectPiece false exDist exSeedPut).pieces_ 0).GetState
        = PieceState.SELECTED := by
  refine ⟨rfl, rfl, rfl, by decide, by decide, by decide⟩

/-- Claim C9: for every `p` in 0..15 the piece `CreateScene` builds from `p` reports
bit `i` of `p` as attribute `i`, and reading the four bits back with `ToInt` gives
`p`, so that the piece at position `p` has identifier `p`; the 16 pieces have
pairwise distinct attribute patterns and every 4-bit pattern occurs. -/
theorem CreateScene_attributes_roundtrip :
    (∀ p : PiecePtr,
      (∀ i : Fin 4, (CreateScene_pieces p).GetAttribute i = p.val.testBit i.val)
      ∧ (CreateScene_pieces p).ToInt = (p.val : Int))
    ∧ Function.Bijective (fun p : PiecePtr => (CreateScene_pieces p).attributes_) := by
  have hround : ∀ p : PiecePtr, (CreateScene_pieces p).ToInt = (p.val : Int) := by
    decide
  refine ⟨fun p => ⟨fun _ => rfl, hround p⟩, ?_, ?_⟩
  · intro p q hpq
    have hint : (CreateScene_pieces p).ToInt = (CreateScene_pieces q).ToInt :=
      Piece_ToInt_congr _ _ hpq
    rw [hround p, hround q] at hint
    exact Fin.ext (by exact_mod_cast hint)
  · intro a
    refine ⟨⟨(if a 0 then 1 else 0) + (if a 1 then 2 else 0) + (if a 2 then 4 else 0)
      + (if a 3 then 8 else 0), ?_⟩, ?_⟩
    · show _ < 16
      split_ifs <;> omega
    · funext i
      simp only [CreateScene_pieces, Piece.new, Attributes.ofInt]
      fin_cases i <;> cases h0 : a 0 <;> cases h1 : a 1 <;> cases h2 : a 2 <;>
        cases h3 : a 3 <;> simp [h0, h1, h2, h3] <;> decide

/-- Claim C10: in a state where the piece at every position `i` has identifier `i`,
piece `sel` is the selected piece and the only one in state SELECTED, and some other
piece is free, `StepSelectPiece(next)` followed by `StepSelectPiece(!next)` returns,
each call evaluating the loop condition 16 times at most, with `sel` selected again
and every piece in the state it had before the two calls. -/
theorem StepSelectPiece_there_and_back {D : Type} [LinearOrder D] (l1 l2 : Bool)
    (d1 d2 : PiecePtr → D) (fuel1 fuel2 : Nat) (next : Bool) (s : MasterControl)
    (sel : PiecePtr)
    (hfuel1 : 16 ≤ fuel1) (hfuel2 : 16 ≤ fuel2)
    (hid : ∀ i : PiecePtr, (s.pieces_ i).ToInt = (i.val : Int))
    (hsel : s.selectedPiece_ = some sel)
    (hstate : (s.pieces_ sel).GetState = PieceState.SELECTED)
    (_honly : ∀ i : PiecePtr, (s.pieces_ i).GetState = PieceState.SELECTED → i = sel)
    (hfree : ∃ f : PiecePtr, f ≠ sel ∧ (s.pieces_ f).GetState = PieceState.FREE) :
    ∃ s1 s2 : MasterControl,
      StepSelectPiece l1 d1 fuel1 next s = Except.ok s1
      ∧ StepSelectPiece l2 d2 fuel2 (!next) s1 = Except.ok s2
      ∧ s2.selectedPiece_ = some sel
      ∧ (∀ i : PiecePtr, (s2.pieces_ i).GetState = (s.pieces_ i).GetState)
      ∧ s2.pieces_ = s.pieces_ := by
  obtain ⟨f, _, hf⟩ := hfree
  obtain ⟨k, hk16, hmin, hkfree, hloop⟩ :=
    StepSelectPiece_loop_finds s.pieces_ next sel ⟨f, hf⟩
  have hk0 : 0 < k := by
    rcases Nat.eq_zero_or_pos k with h | h
    · subst h
      simp only [zero_smul, add_zero] at hkfree
      rw [hstate] at hkfree
      cases hkfree
    · exact h
  have hne : sel + k • stepDelta next ≠ sel := by
    intro h
    rw [h, hstate] at hkfree
    cases hkfree
  -- the first call
  have hs1 : StepSelectPiece l1 d1 fuel1 next s
      = Except.ok (SelectPiece { s with selectionMode_ := SelectionMode.SM_STEP }
          (sel + k • stepDelta next)) := by
    unfold StepSelectPiece
    simp only [hsel, hid sel, hloop fuel1 hfuel1, At_val]
  obtain ⟨s1, hs1def⟩ : ∃ s1, SelectPiece { s with selectionMode_ := SelectionMode.SM_STEP }
      (sel + k • stepDelta next) = s1 := ⟨_, rfl⟩
  rw [hs1def] at hs1
  have hs1sel : s1.selectedPiece_ = some (sel + k • stepDelta next) := by
    rw [← hs1def]; rfl
  have hs1state : ∀ i : PiecePtr, (s1.pieces_ i).GetState
      = if i = sel + k • stepDelta next then PieceState.SELECTED
        else if i = sel then PieceState.FREE else (s.pieces_ i).GetState := by
    intro i
    rw [← hs1def, SelectPiece_state]
    simp only [hsel, Option.some.injEq]
    by_cases h1 : i = sel + k • stepDelta next
    · simp [h1]
    · by_cases h2 : i = sel
      · simp [h2]
      · have h3 : ¬ sel = i := fun h => h2 h.symm
        simp [h1, h2, h3]
  have hs1attr : ∀ i : PiecePtr, (s1.pieces_ i).attributes_ = (s.pieces_ i).attributes_ := by
    intro i
    rw [← hs1def, SelectPiece_attributes]
  -- the second call
  have hback : StepSelectPiece_loop s1.pieces_ (!next) fuel2
      (((sel + k • stepDelta next).val : Nat) : Int) = Except.ok ((sel.val : Nat) : Int) := by
    have h := StepSelectPiece_loop_spec s1.pieces_ (!next) k fuel2 (sel + k • stepDelta next)
      ?_ ?_ (by omega)
    · rw [h, stepDelta_back next sel k k (le_refl k)]
      simp
    · intro j hj
      rw [stepDelta_back next sel k j (by omega), hs1state]
      by_cases h1 : sel + (k - j) • stepDelta next = sel + k • stepDelta next
      · rw [if_pos h1]
        exact fun h => PieceState.noConfusion h
      · have h2 : sel + (k - j) • stepDelta next ≠ sel := by
          intro h
          have h0 : (k - j) • stepDelta next = 0 := by
            have := congrArg (fun x => x - sel) h
            simpa using this
          exact stepDelta_nsmul_ne_zero next (k - j) (by omega) (by omega) h0
        have hlt : k - j < k := by
          rcases Nat.eq_zero_or_pos j with hj0 | hj0
          · subst hj0
            exact absurd rfl h1
          · omega
        rw [if_neg h1, if_neg h2]
        exact hmin (k - j) hlt
    · rw [stepDelta_back next sel k k (le_refl k)]
      simp only [Nat.sub_self, zero_smul, add_zero]
      rw [hs1state]
      have : ¬ sel = sel + k • stepDelta next := fun h => hne h.symm
      rw [if_neg this, if_pos rfl]
  have hs2 : StepSelectPiece l2 d2 fuel2 (!next) s1
      = Except.ok (SelectPiece { s1 with selectionMode_ := SelectionMode.SM_STEP } sel) := by
    have htoint : (s1.pieces_ (sel + k • stepDelta next)).ToInt
        = (((sel + k • stepDelta next).val : Nat) : Int) := by
      rw [Piece_ToInt_congr _ _ (hs1attr _), hid]
    unfold StepSelectPiece
    simp only [hs1sel, htoint, hback, At_val]
  have hstates : ∀ i : PiecePtr,
      ((SelectPiece { s1 with selectionMode_ := SelectionMode.SM_STEP } sel).pieces_ i).GetState
        = (s.pieces_ i).GetState := by
    intro i
    rw [SelectPiece_state]
    simp only [hs1sel, Option.some.injEq, hs1state]
    by_cases h1 : i = sel
    · rw [if_pos h1, h1, hstate]
    · by_cases h2 : i = sel + k • stepDelta next
      · rw [if_neg h1, if_pos h2.symm, h2, hkfree]
      · have h3 : ¬ sel + k • stepDelta next = i := fun h => h2 h.symm
        rw [if_neg h1, if_neg h3, if_neg h2, if_neg h1]
  refine ⟨s1, _, hs1, hs2, rfl, hstates, ?_⟩
  funext i
  apply Piece_eq_of
  · rw [SelectPiece_attributes]
    exact hs1attr i
  · exact hstates i

/-- Claim C10 at a state with piece 3 selected, pieces 0, 5, 10 and 15 free and the
others on the board, stepping with `next` set and then back. -/
theorem StepSelectPiece_there_and_back_witness :
    ∃ s1 s2 : MasterControl,
      StepSelectPiece false exDist 16 true exMixed = Except.ok s1
      ∧ StepSelectPiece false exDist 16 (!true) s1 = Except.ok s2
      ∧ s2.selectedPiece_ = some 3
      ∧ (∀ i : PiecePtr, (s2.pieces_ i).GetState = (exMixed.pieces_ i).GetState)
      ∧ s2.pieces_ = exMixed.pieces_ :=
  StepSelectPiece_there_and_back false false exDist exDist 16 16 true exMixed 3
    (le_refl 16) (le_refl 16) (by decide) rfl rfl (by decide) ⟨0, by decide, rfl⟩

end QuatterCore
